import Mathlib

set_option linter.unnecessarySeqFocus false

/-!
Shallow embedding of `src/query/src/storages/fuse/statistics/reducers.rs`
(the statistics-aggregation core of the fuse storage layer), together with
theorems settling the specification claims about it.

Modelling conventions:
* `HashMap<K, V>` is modelled as the partial map `K → Option V`; slices are
  Lean lists.  The per-key list of contributions assembled by the grouping
  folds of the source is recovered per key by `List.filterMap` in slice
  order (within one input map each key occurs at most once, so the
  arbitrary `HashMap` iteration order of the inner fold does not affect the
  per-key contribution sequence).
* `u64`/`usize` counters are modelled as `Nat`.
* `DataValue` (from the external `common_datavalues` crate) is modelled as
  a value domain with a null marker and a total comparison `cmp`,
  instantiated with integers; the reducers use `cmp` only through
  `min_by`/`max_by` after filtering out nulls, exactly as the source does.
* `Result<T>` is modelled as `Except String T`; every return site of the
  reducers in the source is `Ok` (the `try_fold` bodies end in `Ok(acc)`),
  which the embedding mirrors.
-/

/-- Modelled from the spec (§6, §9) and the external `common_datavalues`
crate: the table's value domain with a null-marker value, carrying the
externally supplied total order used for min/max selection. -/
inductive DataValue where
  | Null : DataValue
  | IntVal : Int → DataValue
deriving DecidableEq, Repr

/-- `DataValue::is_null`. -/
def DataValue.is_null : DataValue → Bool
  | .Null => true
  | .IntVal _ => false

/-- The externally supplied total order on values (`DataValue::cmp`);
nulls sort first, integers by their numeric order. -/
def DataValue.cmp : DataValue → DataValue → Ordering
  | .Null, .Null => .eq
  | .Null, .IntVal _ => .lt
  | .IntVal _, .Null => .gt
  | .IntVal a, .IntVal b => if a < b then .lt else if b < a then .gt else .eq

/-- `a` is at most `b` under the supplied total order. -/
def DataValue.le (a b : DataValue) : Prop := a.cmp b ≠ Ordering.gt

instance : DecidableEq Ordering := fun a b => by
  cases a <;> cases b <;> first | exact isTrue rfl | exact isFalse (by simp)

instance (a b : DataValue) : Decidable (a.le b) := by
  unfold DataValue.le; infer_instance

/-- Modelled from the spec (§3): per top-level column summary. -/
structure ColumnStatistics where
  min : DataValue
  max : DataValue
  null_count : Nat
  in_memory_size : Nat
deriving DecidableEq, Repr

/-- Modelled from the spec (§3): per nested/array leaf-path summary, with
`unset_bits` in place of `null_count`. -/
structure SubColumnStatistics where
  min : DataValue
  max : DataValue
  unset_bits : Nat
  in_memory_size : Nat
deriving DecidableEq, Repr

/-- Stable integer column id. -/
abbrev ColumnId := Nat

/-- `StatisticsOfColumns = HashMap<ColumnId, ColumnStatistics>`. -/
abbrev StatisticsOfColumns := ColumnId → Option ColumnStatistics

/-- `StatisticsOfSubColumns = HashMap<String, ColumnStatistics>`, keyed by
the nested path. -/
abbrev StatisticsOfSubColumns := String → Option SubColumnStatistics

/-- Modelled from the spec (§3): per-block record. -/
structure BlockMeta where
  row_count : Nat
  block_size : Nat
  file_size : Nat
  col_stats : StatisticsOfColumns
  sub_col_stats : Option StatisticsOfSubColumns

/-- Modelled from the spec (§3): aggregate record at segment/snapshot
granularity. -/
structure Statistics where
  row_count : Nat
  block_count : Nat
  uncompressed_byte_size : Nat
  compressed_byte_size : Nat
  col_stats : StatisticsOfColumns
  sub_col_stats : Option StatisticsOfSubColumns

/-- Modelled from the spec (§3, §4.4): `Statistics::default()`, the
identity element — all counts zero, empty column map, absent sub-column
map. -/
def Statistics.default : Statistics where
  row_count := 0
  block_count := 0
  uncompressed_byte_size := 0
  compressed_byte_size := 0
  col_stats := fun _ => none
  sub_col_stats := none

/-- Rust `Iterator::min_by`: folds keeping the current minimum, replacing
it only when the new element is strictly smaller (ties keep the first). -/
def min_by (cmp : α → α → Ordering) : List α → Option α
  | [] => none
  | x :: xs => some (xs.foldl (fun m y => if cmp y m = Ordering.lt then y else m) x)

/-- Rust `Iterator::max_by`: folds keeping the current maximum, replacing
it whenever the new element is not strictly smaller (ties keep the last). -/
def max_by (cmp : α → α → Ordering) : List α → Option α
  | [] => none
  | x :: xs => some (xs.foldl (fun m y => if cmp y m = Ordering.lt then m else y) x)

/-- The per-column-id vector of contributing `ColumnStatistics` assembled
by the grouping fold of `reduce_block_statistics` (reducers.rs lines
35-45).  The accumulation step is
`acc.entry(*col_id).or_insert_with(|| vec![stats]).push(stats)`:
on the first occurrence of a column id the closure inserts `vec![stats]`
and the subsequent `push` appends the same reference again, so the first
contribution appears twice in the vector; later occurrences are appended
once. -/
def col_stat_list (stats : List StatisticsOfColumns) (col_id : ColumnId) :
    List ColumnStatistics :=
  match stats.filterMap (fun item => item col_id) with
  | [] => []
  | c :: rest => c :: c :: rest

/-- The per-key reduction body of `reduce_block_statistics` (lines 53-96):
push all mins and maxes, sum `null_count` and `in_memory_size`, then take
the min/max of the non-null values, falling back to `DataValue::Null`. -/
def reduce_col_entry (cs : List ColumnStatistics) : ColumnStatistics :=
  let min_stats := cs.map (fun c => c.min)
  let max_stats := cs.map (fun c => c.max)
  let null_count := (cs.map (fun c => c.null_count)).sum
  let in_memory_size := (cs.map (fun c => c.in_memory_size)).sum
  let min := (min_by DataValue.cmp ( min_stats.filter (fun s => ! s.is_null))).getD .Null
  let max := (max_by DataValue.cmp ( max_stats.filter (fun s => ! s.is_null))).getD .Null
  { min := min, max := max, null_count := null_count, in_memory_size := in_memory_size }

/-- Pure value computed by `reduce_block_statistics`: per key, reduce the
assembled contribution vector; keys without contributions are absent. -/
def reduceColumnsPure (stats : List StatisticsOfColumns) : StatisticsOfColumns :=
  fun col_id =>
    match col_stat_list stats col_id with
    | [] => none
    | c :: rest => some (reduce_col_entry (c :: rest))

/-- `reduce_block_statistics` (reducers.rs lines 29-98).  The `try_fold`
body ends in `Ok(acc)` unconditionally, so the function is `Ok` of the
pure reduction. -/
def reduce_block_statistics (stats : List StatisticsOfColumns) :
    Except String StatisticsOfColumns :=
  Except.ok (reduceColumnsPure stats)

/-- Per-key contribution vector of `reduce_block_sub_statistics` (lines
106-116); same `or_insert_with(|| vec![sub_stats]).push(sub_stats)`
accumulation, so again the first contribution appears twice. -/
def sub_col_stat_list (sub_stats : List StatisticsOfSubColumns) (col_key : String) :
    List SubColumnStatistics :=
  match sub_stats.filterMap (fun item => item col_key) with
  | [] => []
  | c :: rest => c :: c :: rest

/-- Per-key reduction body of `reduce_block_sub_statistics` (lines
122-168), accumulating `unset_bits` in place of `null_count`. -/
def reduce_sub_col_entry (cs : List SubColumnStatistics) : SubColumnStatistics :=
  let min_stats := cs.map (fun c => c.min)
  let max_stats := cs.map (fun c => c.max)
  let unset_bits := (cs.map (fun c => c.unset_bits)).sum
  let in_memory_size := (cs.map (fun c => c.in_memory_size)).sum
  let min := (min_by DataValue.cmp ( min_stats.filter (fun s => ! s.is_null))).getD .Null
  let max := (max_by DataValue.cmp ( max_stats.filter (fun s => ! s.is_null))).getD .Null
  { min := min, max := max, unset_bits := unset_bits, in_memory_size := in_memory_size }

/-- Pure value computed by `reduce_block_sub_statistics`. -/
def reduceSubColumnsPure (sub_stats : List StatisticsOfSubColumns) : StatisticsOfSubColumns :=
  fun col_key =>
    match sub_col_stat_list sub_stats col_key with
    | [] => none
    | c :: rest => some (reduce_sub_col_entry (c :: rest))

/-- `reduce_block_sub_statistics` (reducers.rs lines 100-170); as above,
every return site in the source is `Ok`. -/
def reduce_block_sub_statistics (sub_stats : List StatisticsOfSubColumns) :
    Except String StatisticsOfSubColumns :=
  Except.ok (reduceSubColumnsPure sub_stats)

/-- `merge_statistics` (reducers.rs lines 172-192). -/
def merge_statistics (l r : Statistics) : Except String Statistics := do
  let sub_col_stats ← match l.sub_col_stats, r.sub_col_stats with
    | none, none => pure none
    | some l_sub_col_stats, none => pure (some l_sub_col_stats)
    | none, some r_sub_col_stats => pure (some r_sub_col_stats)
    | some l_sub_col_stats, some r_sub_col_stats => do
        let reduced ← reduce_block_sub_statistics [l_sub_col_stats, r_sub_col_stats]
        pure (some reduced)
  let col_stats ← reduce_block_statistics [l.col_stats, r.col_stats]
  pure { row_count := l.row_count + r.row_count
         block_count := l.block_count + r.block_count
         uncompressed_byte_size := l.uncompressed_byte_size + r.uncompressed_byte_size
         compressed_byte_size := l.compressed_byte_size + r.compressed_byte_size
         col_stats := col_stats
         sub_col_stats := sub_col_stats }

/-- Pure value computed by `merge_statistics`. -/
def mergeStats (l r : Statistics) : Statistics where
  row_count := l.row_count + r.row_count
  block_count := l.block_count + r.block_count
  uncompressed_byte_size := l.uncompressed_byte_size + r.uncompressed_byte_size
  compressed_byte_size := l.compressed_byte_size + r.compressed_byte_size
  col_stats := reduceColumnsPure [l.col_stats, r.col_stats]
  sub_col_stats :=
    match l.sub_col_stats, r.sub_col_stats with
    | none, none => none
    | some l_sub_col_stats, none => some l_sub_col_stats
    | none, some r_sub_col_stats => some r_sub_col_stats
    | some l_sub_col_stats, some r_sub_col_stats =>
        some (reduceSubColumnsPure [l_sub_col_stats, r_sub_col_stats])

theorem merge_statistics_ok (l r : Statistics) :
    merge_statistics l r = Except.ok (mergeStats l r) := by
  cases hl : l.sub_col_stats <;> cases hr : r.sub_col_stats <;>
    simp [merge_statistics, mergeStats, hl, hr, reduce_block_sub_statistics,
      reduce_block_statistics, bind, Except.bind, pure, Except.pure]

/-- `reduce_statistics` (reducers.rs lines 194-200): left fold of
`merge_statistics` seeded with `Statistics::default()`. -/
def reduce_statistics (stats : List Statistics) : Except String Statistics :=
  stats.foldlM (fun statistics item => merge_statistics statistics item) Statistics.default

/-- `reduce_block_metas` (reducers.rs lines 202-242): one accumulation
pass over the blocks for the four counters, then the two reducers. -/
def reduce_block_metas (block_metas : List BlockMeta) : Except String Statistics := do
  let counts := block_metas.foldl
    (fun acc b =>
      (acc.1 + b.row_count, acc.2.1 + 1, acc.2.2.1 + b.block_size, acc.2.2.2 + b.file_size))
    ((0, 0, 0, 0) : Nat × Nat × Nat × Nat)
  let merged_col_stats ← reduce_block_statistics (block_metas.map (fun v => v.col_stats))
  let sub_stats := block_metas.filterMap (fun v => v.sub_col_stats)
  let merged_sub_col_stats ←
    if sub_stats.isEmpty then pure none
    else do
      let reduced ← reduce_block_sub_statistics sub_stats
      pure (some reduced)
  pure { row_count := counts.1
         block_count := counts.2.1
         uncompressed_byte_size := counts.2.2.1
         compressed_byte_size := counts.2.2.2
         col_stats := merged_col_stats
         sub_col_stats := merged_sub_col_stats }

/-! ### Properties of the supplied total order -/

theorem DataValue.le_refl (a : DataValue) : a.le a := by
  cases a <;> simp [DataValue.le, DataValue.cmp]

theorem DataValue.le_of_cmp_lt {a b : DataValue} (h : a.cmp b = Ordering.lt) : a.le b := by
  simp [DataValue.le, h]

theorem DataValue.le_of_not_lt {a b : DataValue} (h : a.cmp b ≠ Ordering.lt) : b.le a := by
  cases a <;> cases b <;> unfold DataValue.le DataValue.cmp at * <;> simp_all

theorem DataValue.le_trans {a b c : DataValue} (h1 : a.le b) (h2 : b.le c) : a.le c := by
  cases a <;> cases b <;> cases c <;> unfold DataValue.le DataValue.cmp at * <;>
    simp_all <;> omega

/-! ### `min_by` / `max_by` selection lemmas -/

theorem foldl_min_mem (xs : List DataValue) (x : DataValue) :
    xs.foldl (fun m y => if DataValue.cmp y m = Ordering.lt then y else m) x ∈ x :: xs := by
  induction xs generalizing x with
  | nil => simp
  | cons y ys ih =>
    simp only [List.foldl_cons]
    rcases List.mem_cons.mp (ih (if DataValue.cmp y x = Ordering.lt then y else x)) with h1 | h1
    · rw [h1]; split <;> simp
    · simp [List.mem_cons.mpr (Or.inr h1)]

theorem foldl_min_le (xs : List DataValue) (x : DataValue) :
    ∀ z ∈ x :: xs,
      (xs.foldl (fun m y => if DataValue.cmp y m = Ordering.lt then y else m) x).le z := by
  induction xs generalizing x with
  | nil =>
    intro z hz
    simp only [List.mem_singleton] at hz
    subst hz
    exact DataValue.le_refl z
  | cons y ys ih =>
    intro z hz
    simp only [List.foldl_cons]
    have hsx : (if DataValue.cmp y x = Ordering.lt then y else x).le x := by
      by_cases h : DataValue.cmp y x = Ordering.lt
      · rw [if_pos h]; exact DataValue.le_of_cmp_lt h
      · rw [if_neg h]; exact DataValue.le_refl x
    have hsy : (if DataValue.cmp y x = Ordering.lt then y else x).le y := by
      by_cases h : DataValue.cmp y x = Ordering.lt
      · rw [if_pos h]; exact DataValue.le_refl y
      · rw [if_neg h]; exact DataValue.le_of_not_lt h
    have hres := ih (if DataValue.cmp y x = Ordering.lt then y else x)
    have hress : (ys.foldl (fun m y => if DataValue.cmp y m = Ordering.lt then y else m)
        (if DataValue.cmp y x = Ordering.lt then y else x)).le
        (if DataValue.cmp y x = Ordering.lt then y else x) :=
      hres _ (List.mem_cons_self _ _)
    rcases List.mem_cons.mp hz with h1 | h1
    · exact DataValue.le_trans hress (h1 ▸ hsx)
    · rcases List.mem_cons.mp h1 with h2 | h2
      · exact DataValue.le_trans hress (h2 ▸ hsy)
      · exact hres z (List.mem_cons.mpr (Or.inr h2))

theorem foldl_max_mem (xs : List DataValue) (x : DataValue) :
    xs.foldl (fun m y => if DataValue.cmp y m = Ordering.lt then m else y) x ∈ x :: xs := by
  induction xs generalizing x with
  | nil => simp
  | cons y ys ih =>
    simp only [List.foldl_cons]
    rcases List.mem_cons.mp (ih (if DataValue.cmp y x = Ordering.lt then x else y)) with h1 | h1
    · rw [h1]; split <;> simp
    · simp [List.mem_cons.mpr (Or.inr h1)]

theorem foldl_max_ge (xs : List DataValue) (x : DataValue) :
    ∀ z ∈ x :: xs,
      z.le (xs.foldl (fun m y => if DataValue.cmp y m = Ordering.lt then m else y) x) := by
  induction xs generalizing x with
  | nil =>
    intro z hz
    simp only [List.mem_singleton] at hz
    subst hz
    exact DataValue.le_refl z
  | cons y ys ih =>
    intro z hz
    simp only [List.foldl_cons]
    have hsx : x.le (if DataValue.cmp y x = Ordering.lt then x else y) := by
      by_cases h : DataValue.cmp y x = Ordering.lt
      · rw [if_pos h]; exact DataValue.le_refl x
      · rw [if_neg h]; exact DataValue.le_of_not_lt h
    have hsy : y.le (if DataValue.cmp y x = Ordering.lt then x else y) := by
      by_cases h : DataValue.cmp y x = Ordering.lt
      · rw [if_pos h]; exact DataValue.le_of_cmp_lt h
      · rw [if_neg h]; exact DataValue.le_refl y
    have hres := ih (if DataValue.cmp y x = Ordering.lt then x else y)
    have hress : (if DataValue.cmp y x = Ordering.lt then x else y).le
        (ys.foldl (fun m y => if DataValue.cmp y m = Ordering.lt then m else y)
          (if DataValue.cmp y x = Ordering.lt then x else y)) :=
      hres _ (List.mem_cons_self _ _)
    rcases List.mem_cons.mp hz with h1 | h1
    · exact DataValue.le_trans (h1 ▸ hsx) hress
    · rcases List.mem_cons.mp h1 with h2 | h2
      · exact DataValue.le_trans (h2 ▸ hsy) hress
      · exact hres z (List.mem_cons.mpr (Or.inr h2))

theorem min_by_spec {l : List DataValue} (h : l ≠ []) :
    ∃ m, min_by DataValue.cmp l = some m ∧ m ∈ l ∧ ∀ z ∈ l, m.le z := by
  cases l with
  | nil => exact absurd rfl h
  | cons x xs => exact ⟨_, rfl, foldl_min_mem xs x, foldl_min_le xs x⟩

theorem max_by_spec {l : List DataValue} (h : l ≠ []) :
    ∃ m, max_by DataValue.cmp l = some m ∧ m ∈ l ∧ ∀ z ∈ l, z.le m := by
  cases l with
  | nil => exact absurd rfl h
  | cons x xs => exact ⟨_, rfl, foldl_max_mem xs x, foldl_max_ge xs x⟩

/-! ### Pure normal forms of the fallible functions -/

/-- Pure value computed by `reduce_statistics`: a left fold of the pure
merge seeded with the identity record. -/
def reduceStatsPure (stats : List Statistics) : Statistics :=
  stats.foldl mergeStats Statistics.default

theorem foldlM_merge_statistics (stats : List Statistics) (init : Statistics) :
    stats.foldlM (fun statistics item => merge_statistics statistics item) init =
      Except.ok (stats.foldl mergeStats init) := by
  induction stats generalizing init with
  | nil => rfl
  | cons x xs ih =>
    rw [List.foldlM_cons, merge_statistics_ok, List.foldl_cons]
    exact ih (mergeStats init x)

theorem reduce_statistics_ok (stats : List Statistics) :
    reduce_statistics stats = Except.ok (reduceStatsPure stats) :=
  foldlM_merge_statistics stats Statistics.default

/-- Pure value computed by `reduce_block_metas`. -/
def reduceBlockMetasPure (block_metas : List BlockMeta) : Statistics :=
  let counts := block_metas.foldl
    (fun acc b =>
      (acc.1 + b.row_count, acc.2.1 + 1, acc.2.2.1 + b.block_size, acc.2.2.2 + b.file_size))
    ((0, 0, 0, 0) : Nat × Nat × Nat × Nat)
  let sub_stats := block_metas.filterMap (fun v => v.sub_col_stats)
  { row_count := counts.1
    block_count := counts.2.1
    uncompressed_byte_size := counts.2.2.1
    compressed_byte_size := counts.2.2.2
    col_stats := reduceColumnsPure (block_metas.map (fun v => v.col_stats))
    sub_col_stats := if sub_stats.isEmpty then none
      else some (reduceSubColumnsPure sub_stats) }

theorem reduce_block_metas_ok (bs : List BlockMeta) :
    reduce_block_metas bs = Except.ok (reduceBlockMetasPure bs) := by
  unfold reduce_block_metas reduceBlockMetasPure
  by_cases h : (bs.filterMap (fun v => v.sub_col_stats)).isEmpty <;>
    simp [h, reduce_block_statistics, reduce_block_sub_statistics, bind, Except.bind,
      pure, Except.pure]

theorem block_counts_foldl (bs : List BlockMeta) (a b c d : Nat) :
    bs.foldl (fun acc x =>
      (acc.1 + x.row_count, acc.2.1 + 1, acc.2.2.1 + x.block_size, acc.2.2.2 + x.file_size))
      (a, b, c, d) =
    (a + (bs.map (fun x => x.row_count)).sum, b + bs.length,
      c + (bs.map (fun x => x.block_size)).sum, d + (bs.map (fun x => x.file_size)).sum) := by
  induction bs generalizing a b c d with
  | nil => simp
  | cons x xs ih => simp [ih, Prod.ext_iff]; omega

/-! ### Per-key bridges between the grouped vector and the contributions -/

theorem mem_col_stat_list {stats : List StatisticsOfColumns} {k : ColumnId}
    {x : ColumnStatistics} :
    x ∈ col_stat_list stats k ↔ x ∈ stats.filterMap (fun item => item k) := by
  unfold col_stat_list
  cases h : stats.filterMap (fun item => item k) with
  | nil => simp
  | cons c rest => simp only [List.mem_cons]; tauto

theorem col_stat_list_nil_iff {stats : List StatisticsOfColumns} {k : ColumnId} :
    col_stat_list stats k = [] ↔ stats.filterMap (fun item => item k) = [] := by
  unfold col_stat_list
  cases h : stats.filterMap (fun item => item k) with
  | nil => simp
  | cons c rest => simp

theorem mem_map_filter_col_stat_list {stats : List StatisticsOfColumns} {k : ColumnId}
    (f : ColumnStatistics → DataValue) {v : DataValue} :
    (v ∈ ((col_stat_list stats k).map f).filter (fun w => ! w.is_null)) ↔
      v ∈ ((stats.filterMap (fun m => m k)).map f).filter (fun w => ! w.is_null) := by
  simp only [List.mem_filter, List.mem_map]
  constructor
  · rintro ⟨⟨a, ha, rfl⟩, hp⟩
    exact ⟨⟨a, mem_col_stat_list.mp ha, rfl⟩, hp⟩
  · rintro ⟨⟨a, ha, rfl⟩, hp⟩
    exact ⟨⟨a, mem_col_stat_list.mpr ha, rfl⟩, hp⟩

theorem map_filter_col_stat_list_nil {stats : List StatisticsOfColumns} {k : ColumnId}
    (f : ColumnStatistics → DataValue) :
    (((col_stat_list stats k).map f).filter (fun w => ! w.is_null) = []) ↔
      ((stats.filterMap (fun m => m k)).map f).filter (fun w => ! w.is_null) = [] := by
  rw [List.eq_nil_iff_forall_not_mem, List.eq_nil_iff_forall_not_mem]
  constructor
  · intro h v hv
    exact h v ((mem_map_filter_col_stat_list f).mpr hv)
  · intro h v hv
    exact h v ((mem_map_filter_col_stat_list f).mp hv)

/-! ### Characterization of the column reducer per key -/

/-- The non-null `min` values contributed to column `k` by the inputs
(the claim's "non-null contributing min values"). -/
def nonNullMins (stats : List StatisticsOfColumns) (k : ColumnId) : List DataValue :=
  ((stats.filterMap (fun m => m k)).map (fun c => c.min)).filter (fun v => ! v.is_null)

/-- The non-null `max` values contributed to column `k` by the inputs. -/
def nonNullMaxs (stats : List StatisticsOfColumns) (k : ColumnId) : List DataValue :=
  ((stats.filterMap (fun m => m k)).map (fun c => c.max)).filter (fun v => ! v.is_null)

theorem reduce_col_entry_min (cs : List ColumnStatistics) :
    (reduce_col_entry cs).min =
      (min_by DataValue.cmp ((cs.map (fun c => c.min)).filter (fun s => ! s.is_null))).getD
        DataValue.Null := rfl

theorem reduce_col_entry_max (cs : List ColumnStatistics) :
    (reduce_col_entry cs).max =
      (max_by DataValue.cmp ((cs.map (fun c => c.max)).filter (fun s => ! s.is_null))).getD
        DataValue.Null := rfl

theorem reduceColumnsPure_none_iff {stats : List StatisticsOfColumns} {k : ColumnId} :
    reduceColumnsPure stats k = none ↔ stats.filterMap (fun m => m k) = [] := by
  rw [← col_stat_list_nil_iff]
  unfold reduceColumnsPure
  cases h : col_stat_list stats k with
  | nil => simp [h]
  | cons c rest => simp [h]

theorem reduceColumnsPure_some {stats : List StatisticsOfColumns} {k : ColumnId}
    {e : ColumnStatistics} (he : reduceColumnsPure stats k = some e) :
    ∃ c rest, col_stat_list stats k = c :: rest ∧ e = reduce_col_entry (c :: rest) := by
  unfold reduceColumnsPure at he
  cases h : col_stat_list stats k with
  | nil => rw [h] at he; simp at he
  | cons c rest =>
    rw [h] at he
    simp only [Option.some.injEq] at he
    exact ⟨c, rest, rfl, he.symm⟩

theorem reduceColumnsPure_isSome_iff {stats : List StatisticsOfColumns} {k : ColumnId} :
    (reduceColumnsPure stats k).isSome = true ↔ ∃ m, m ∈ stats ∧ (m k).isSome = true := by
  rw [← Option.ne_none_iff_isSome, Ne, reduceColumnsPure_none_iff, List.filterMap_eq_nil_iff]
  push_neg
  constructor
  · rintro ⟨m, hm, hne⟩
    exact ⟨m, hm, Option.ne_none_iff_isSome.mp hne⟩
  · rintro ⟨m, hm, hs⟩
    exact ⟨m, hm, Option.ne_none_iff_isSome.mpr hs⟩

theorem reduceColumnsPure_min_spec {stats : List StatisticsOfColumns} {k : ColumnId}
    {e : ColumnStatistics} (he : reduceColumnsPure stats k = some e) :
    (nonNullMins stats k = [] → e.min = DataValue.Null) ∧
    (nonNullMins stats k ≠ [] →
      e.min ∈ nonNullMins stats k ∧ ∀ v ∈ nonNullMins stats k, e.min.le v) := by
  obtain ⟨c, rest, h, rfl⟩ := reduceColumnsPure_some he
  rw [reduce_col_entry_min]
  have hnil := @map_filter_col_stat_list_nil stats k (fun c => c.min)
  have hmem := fun v =>
    @mem_map_filter_col_stat_list stats k (fun c => c.min) v
  rw [h] at hnil hmem
  constructor
  · intro hn
    have hd : ((c :: rest).map (fun c => c.min)).filter (fun s => ! s.is_null) = [] :=
      hnil.mpr hn
    rw [hd]
    rfl
  · intro hn
    have hd : ((c :: rest).map (fun c => c.min)).filter (fun s => ! s.is_null) ≠ [] := by
      intro hd
      exact hn (hnil.mp hd)
    obtain ⟨m, hm_eq, hm_mem, hm_le⟩ := min_by_spec hd
    rw [hm_eq, Option.getD_some]
    exact ⟨(hmem m).mp hm_mem, fun v hv => hm_le v ((hmem v).mpr hv)⟩

theorem reduceColumnsPure_max_spec {stats : List StatisticsOfColumns} {k : ColumnId}
    {e : ColumnStatistics} (he : reduceColumnsPure stats k = some e) :
    (nonNullMaxs stats k = [] → e.max = DataValue.Null) ∧
    (nonNullMaxs stats k ≠ [] →
      e.max ∈ nonNullMaxs stats k ∧ ∀ v ∈ nonNullMaxs stats k, v.le e.max) := by
  obtain ⟨c, rest, h, rfl⟩ := reduceColumnsPure_some he
  rw [reduce_col_entry_max]
  have hnil := @map_filter_col_stat_list_nil stats k (fun c => c.max)
  have hmem := fun v =>
    @mem_map_filter_col_stat_list stats k (fun c => c.max) v
  rw [h] at hnil hmem
  constructor
  · intro hn
    have hd : ((c :: rest).map (fun c => c.max)).filter (fun s => ! s.is_null) = [] :=
      hnil.mpr hn
    rw [hd]
    rfl
  · intro hn
    have hd : ((c :: rest).map (fun c => c.max)).filter (fun s => ! s.is_null) ≠ [] := by
      intro hd
      exact hn (hnil.mp hd)
    obtain ⟨m, hm_eq, hm_mem, hm_le⟩ := max_by_spec hd
    rw [hm_eq, Option.getD_some]
    exact ⟨(hmem m).mp hm_mem, fun v hv => hm_le v ((hmem v).mpr hv)⟩

theorem DataValue.not_is_null_iff {v : DataValue} :
    (! v.is_null) = true ↔ v ≠ DataValue.Null := by
  cases v <;> simp [DataValue.is_null]

theorem mem_nonNullMins {stats : List StatisticsOfColumns} {k : ColumnId}
    {c : ColumnStatistics} (hc : c ∈ stats.filterMap (fun m => m k))
    (hne : c.min ≠ DataValue.Null) : c.min ∈ nonNullMins stats k := by
  unfold nonNullMins
  rw [List.mem_filter]
  exact ⟨List.mem_map.mpr ⟨c, hc, rfl⟩, DataValue.not_is_null_iff.mpr hne⟩

theorem mem_nonNullMaxs {stats : List StatisticsOfColumns} {k : ColumnId}
    {c : ColumnStatistics} (hc : c ∈ stats.filterMap (fun m => m k))
    (hne : c.max ≠ DataValue.Null) : c.max ∈ nonNullMaxs stats k := by
  unfold nonNullMaxs
  rw [List.mem_filter]
  exact ⟨List.mem_map.mpr ⟨c, hc, rfl⟩, DataValue.not_is_null_iff.mpr hne⟩

theorem of_mem_nonNullMins {stats : List StatisticsOfColumns} {k : ColumnId}
    {v : DataValue} (hv : v ∈ nonNullMins stats k) :
    ∃ c, c ∈ stats.filterMap (fun m => m k) ∧ c.min = v ∧ v ≠ DataValue.Null := by
  unfold nonNullMins at hv
  rw [List.mem_filter] at hv
  obtain ⟨hm, hp⟩ := hv
  obtain ⟨c, hc, hcv⟩ := List.mem_map.mp hm
  exact ⟨c, hc, hcv, DataValue.not_is_null_iff.mp hp⟩

theorem of_mem_nonNullMaxs {stats : List StatisticsOfColumns} {k : ColumnId}
    {v : DataValue} (hv : v ∈ nonNullMaxs stats k) :
    ∃ c, c ∈ stats.filterMap (fun m => m k) ∧ c.max = v ∧ v ≠ DataValue.Null := by
  unfold nonNullMaxs at hv
  rw [List.mem_filter] at hv
  obtain ⟨hm, hp⟩ := hv
  obtain ⟨c, hc, hcv⟩ := List.mem_map.mp hm
  exact ⟨c, hc, hcv, DataValue.not_is_null_iff.mp hp⟩

/-! ### Concrete example values used by witnesses and counterexamples -/

/-- Block A's `colA` entry from the spec's concrete scenario 1. -/
def csA : ColumnStatistics :=
  { min := .IntVal 1, max := .IntVal 5, null_count := 0, in_memory_size := 100 }

/-- Block B's `colA` entry from the spec's concrete scenario 1. -/
def csB : ColumnStatistics :=
  { min := .IntVal 3, max := .IntVal 10, null_count := 2, in_memory_size := 150 }

def mapA : StatisticsOfColumns := fun k => if k = 0 then some csA else none

def mapB : StatisticsOfColumns := fun k => if k = 0 then some csB else none

def csN1 : ColumnStatistics :=
  { min := .IntVal 4, max := .IntVal 6, null_count := 1, in_memory_size := 10 }

def csN2 : ColumnStatistics :=
  { min := .IntVal 2, max := .IntVal 9, null_count := 2, in_memory_size := 20 }

def mapN1 : StatisticsOfColumns := fun k => if k = 0 then some csN1 else none

def mapN2 : StatisticsOfColumns := fun k => if k = 0 then some csN2 else none

def stN1 : Statistics :=
  { row_count := 1, block_count := 1, uncompressed_byte_size := 10,
    compressed_byte_size := 5, col_stats := mapN1, sub_col_stats := none }

def stN2 : Statistics :=
  { row_count := 2, block_count := 1, uncompressed_byte_size := 20,
    compressed_byte_size := 8, col_stats := mapN2, sub_col_stats := none }

def bmA : BlockMeta :=
  { row_count := 5, block_size := 10, file_size := 7, col_stats := mapA,
    sub_col_stats := none }

/-- Column map carrying `csB` under the distinct column id 1. -/
def mapB1 : StatisticsOfColumns := fun k => if k = 1 then some csB else none

def bmB : BlockMeta :=
  { row_count := 7, block_size := 20, file_size := 9, col_stats := mapB1,
    sub_col_stats := none }

/-- The entry the code actually computes for column 0 of scenario 1
(`in_memory_size` is 350, block A's 100 counted twice). -/
def csMergedAB : ColumnStatistics :=
  { min := .IntVal 1, max := .IntVal 10, null_count := 2, in_memory_size := 350 }

/-! ### Claim theorems -/

/-- C1: the claim that `merge_statistics` is commutative (and associative,
and fold-grouping-independent) fails on the code: because the grouping
fold inserts the first contribution of each column twice, merging two
records that both carry column 0 double-counts the left record's entry,
so `merge(a,b)` and `merge(b,a)` differ in `col_stats`. -/
theorem C1_merge_not_commutative :
    ∃ s t, merge_statistics stN1 stN2 = Except.ok s ∧
      merge_statistics stN2 stN1 = Except.ok t ∧ s.col_stats 0 ≠ t.col_stats 0 :=
  ⟨_, _, merge_statistics_ok stN1 stN2, merge_statistics_ok stN2 stN1, by decide⟩

/-- C2: the claim that the all-zero `Statistics` is an identity of
`merge_statistics` fails on the code: merging the identity with a record
whose column 0 has `null_count` 1 and `in_memory_size` 10 yields an entry
with `null_count` 2 and `in_memory_size` 20 (the single contribution is
counted twice), so the record is not returned unchanged. -/
theorem C2_identity_fails :
    ∃ s, merge_statistics Statistics.default stN1 = Except.ok s ∧
      s.col_stats 0 ≠ stN1.col_stats 0 :=
  ⟨_, merge_statistics_ok _ _, by decide⟩

/-- C3: evaluating the column reducer on the spec's concrete scenario 1:
block A `colA` is `(min 1, max 5, null_count 0, in_memory_size 100)` and
block B `colA` is `(min 3, max 10, null_count 2, in_memory_size 150)`;
the code produces `in_memory_size` 350 — block A's entry is summed twice —
not the 250 the claim states (min, max and `null_count` agree). -/
theorem C3_scenario1_eval :
    ∃ out, reduce_block_statistics [mapA, mapB] = Except.ok out ∧
      out 0 = some csMergedAB :=
  ⟨_, rfl, by decide⟩

/-- C5: the claim that reducing two `BlockMeta` with disjoint column ids
yields the union of their `col_stats` entries unchanged fails on the code:
the totals are right (`row_count` 12, `block_count` 2) but block A's
column 0 entry comes out with `in_memory_size` 200 instead of 100 (the
sole contribution is counted twice). -/
theorem C5_disjoint_entry_changed :
    ∃ s, reduce_block_metas [bmA, bmB] = Except.ok s ∧
      s.row_count = 12 ∧ s.block_count = 2 ∧ s.col_stats 0 ≠ bmA.col_stats 0 :=
  ⟨_, reduce_block_metas_ok _, by decide, by decide, by decide⟩

/-- C4: the column reducer's output key set is exactly the union of the
input key sets; per key, the output `min` is the least and the output
`max` the greatest of the non-null contributing values under the supplied
total order, and when every contributing min/max is the null-marker the
output falls back to the null-marker for both. -/
theorem C4_union_and_minmax (stats : List StatisticsOfColumns)
    (out : StatisticsOfColumns) (hout : reduce_block_statistics stats = Except.ok out)
    (k : ColumnId) :
    ((out k).isSome = true ↔ ∃ m, m ∈ stats ∧ (m k).isSome = true) ∧
    ∀ e, out k = some e →
      (nonNullMins stats k = [] → e.min = DataValue.Null) ∧
      (nonNullMins stats k ≠ [] →
        e.min ∈ nonNullMins stats k ∧ ∀ v ∈ nonNullMins stats k, e.min.le v) ∧
      (nonNullMaxs stats k = [] → e.max = DataValue.Null) ∧
      (nonNullMaxs stats k ≠ [] →
        e.max ∈ nonNullMaxs stats k ∧ ∀ v ∈ nonNullMaxs stats k, v.le e.max) ∧
      ((∀ c ∈ stats.filterMap (fun m => m k),
          c.min = DataValue.Null ∧ c.max = DataValue.Null) →
        e.min = DataValue.Null ∧ e.max = DataValue.Null) := by
  have hout' : reduceColumnsPure stats = out := Except.ok.inj hout
  subst hout'
  refine ⟨reduceColumnsPure_isSome_iff, ?_⟩
  intro e he
  obtain ⟨hmin_nil, hmin_ne⟩ := reduceColumnsPure_min_spec he
  obtain ⟨hmax_nil, hmax_ne⟩ := reduceColumnsPure_max_spec he
  refine ⟨hmin_nil, hmin_ne, hmax_nil, hmax_ne, ?_⟩
  intro hall
  have hmn : nonNullMins stats k = [] := by
    rw [List.eq_nil_iff_forall_not_mem]
    intro v hv
    obtain ⟨c, hc, hcv, hvne⟩ := of_mem_nonNullMins hv
    exact hvne (hcv ▸ (hall c hc).1)
  have hmx : nonNullMaxs stats k = [] := by
    rw [List.eq_nil_iff_forall_not_mem]
    intro v hv
    obtain ⟨c, hc, hcv, hvne⟩ := of_mem_nonNullMaxs hv
    exact hvne (hcv ▸ (hall c hc).2)
  exact ⟨hmin_nil hmn, hmax_nil hmx⟩

/-- Every entry stored in the example maps `mapA` and `mapB` is a
well-formed summary (used to discharge hypotheses at a concrete input). -/
theorem mapsAB_entries_some :
    ∀ m ∈ [mapA, mapB], ∀ k e, m k = some e → (e = csA ∨ e = csB) := by
  intro m hm k e he
  rcases List.mem_cons.mp hm with rfl | hm
  · unfold mapA at he
    by_cases hk : k = 0
    · rw [if_pos hk] at he
      exact Or.inl (Option.some.inj he).symm
    · rw [if_neg hk] at he
      cases he
  · rcases List.mem_cons.mp hm with rfl | hm
    · unfold mapB at he
      by_cases hk : k = 0
      · rw [if_pos hk] at he
        exact Or.inr (Option.some.inj he).symm
      · rw [if_neg hk] at he
        cases he
    · cases hm

theorem C4_witness :
    nonNullMins [mapA, mapB] 0 ≠ [] ∧
    csMergedAB.min ∈ nonNullMins [mapA, mapB] 0 :=
  ⟨by decide,
    (((C4_union_and_minmax [mapA, mapB] _ rfl 0).2 csMergedAB
      (by decide)).2.1 (by decide)).1⟩

/-- C6: `reduce_block_metas` returns the sums of the blocks' `row_count`,
`block_size` and `file_size`, the input length as `block_count`, and a
`sub_col_stats` that is absent exactly when no block carries one and is
otherwise the sub-column reduction of the present ones. -/
theorem C6_block_metas_totals (bs : List BlockMeta) (s : Statistics)
    (h : reduce_block_metas bs = Except.ok s) :
    s.row_count = (bs.map (fun b => b.row_count)).sum ∧
    s.block_count = bs.length ∧
    s.uncompressed_byte_size = (bs.map (fun b => b.block_size)).sum ∧
    s.compressed_byte_size = (bs.map (fun b => b.file_size)).sum ∧
    (s.sub_col_stats = none ↔ ∀ b ∈ bs, b.sub_col_stats = none) ∧
    (bs.filterMap (fun v => v.sub_col_stats) ≠ [] →
      s.sub_col_stats =
        some (reduceSubColumnsPure (bs.filterMap (fun v => v.sub_col_stats)))) := by
  have hs : reduceBlockMetasPure bs = s :=
    Except.ok.inj ((reduce_block_metas_ok bs).symm.trans h)
  subst hs
  have hc := block_counts_foldl bs 0 0 0 0
  refine ⟨?_, ?_, ?_, ?_, ?_, ?_⟩
  · show (bs.foldl (fun acc b => (acc.1 + b.row_count, acc.2.1 + 1,
        acc.2.2.1 + b.block_size, acc.2.2.2 + b.file_size))
        ((0, 0, 0, 0) : Nat × Nat × Nat × Nat)).1 = (bs.map (fun b => b.row_count)).sum
    rw [hc]
    simp
  · show (bs.foldl (fun acc b => (acc.1 + b.row_count, acc.2.1 + 1,
        acc.2.2.1 + b.block_size, acc.2.2.2 + b.file_size))
        ((0, 0, 0, 0) : Nat × Nat × Nat × Nat)).2.1 = bs.length
    rw [hc]
    simp
  · show (bs.foldl (fun acc b => (acc.1 + b.row_count, acc.2.1 + 1,
        acc.2.2.1 + b.block_size, acc.2.2.2 + b.file_size))
        ((0, 0, 0, 0) : Nat × Nat × Nat × Nat)).2.2.1 = (bs.map (fun b => b.block_size)).sum
    rw [hc]
    simp
  · show (bs.foldl (fun acc b => (acc.1 + b.row_count, acc.2.1 + 1,
        acc.2.2.1 + b.block_size, acc.2.2.2 + b.file_size))
        ((0, 0, 0, 0) : Nat × Nat × Nat × Nat)).2.2.2 = (bs.map (fun b => b.file_size)).sum
    rw [hc]
    simp
  · show (if (bs.filterMap (fun v => v.sub_col_stats)).isEmpty then none
        else some (reduceSubColumnsPure (bs.filterMap (fun v => v.sub_col_stats)))) =
        none ↔ ∀ b ∈ bs, b.sub_col_stats = none
    cases hfm : bs.filterMap (fun v => v.sub_col_stats) with
    | nil =>
      simp only [List.isEmpty_nil, if_true]
      constructor
      · intro _ b hb
        exact List.filterMap_eq_nil_iff.mp hfm b hb
      · intro _
        trivial
    | cons a l =>
      simp only [List.isEmpty_cons, if_false]
      constructor
      · intro hcontra
        cases hcontra
      · intro hall
        have hnil : bs.filterMap (fun v => v.sub_col_stats) = [] :=
          List.filterMap_eq_nil_iff.mpr hall
        rw [hfm] at hnil
        cases hnil
  · intro hne
    show (if (bs.filterMap (fun v => v.sub_col_stats)).isEmpty then none
        else some (reduceSubColumnsPure (bs.filterMap (fun v => v.sub_col_stats)))) =
        some (reduceSubColumnsPure (bs.filterMap (fun v => v.sub_col_stats)))
    cases hfm : bs.filterMap (fun v => v.sub_col_stats) with
    | nil => exact absurd hfm hne
    | cons a l => simp

theorem C6_witness :
    (reduceBlockMetasPure [bmA, bmB]).row_count =
      ([bmA, bmB].map (fun b => b.row_count)).sum :=
  (C6_block_metas_totals [bmA, bmB] _ (reduce_block_metas_ok _)).1

/-- C7: `merge_statistics` propagates the optional `sub_col_stats` by the
three-way case of the source: absent iff both sides absent, the present
side passed through verbatim when exactly one is present, and the
sub-column reduction of the two maps when both are present. -/
theorem C7_sub_stats_propagation (a b s : Statistics)
    (h : merge_statistics a b = Except.ok s) :
    (s.sub_col_stats = none ↔ a.sub_col_stats = none ∧ b.sub_col_stats = none) ∧
    (∀ m, a.sub_col_stats = some m → b.sub_col_stats = none →
      s.sub_col_stats = some m) ∧
    (∀ m, a.sub_col_stats = none → b.sub_col_stats = some m →
      s.sub_col_stats = some m) ∧
    (∀ ma mb, a.sub_col_stats = some ma → b.sub_col_stats = some mb →
      s.sub_col_stats = some (reduceSubColumnsPure [ma, mb])) := by
  have hs : mergeStats a b = s :=
    Except.ok.inj ((merge_statistics_ok a b).symm.trans h)
  subst hs
  unfold mergeStats
  cases ha : a.sub_col_stats <;> cases hb : b.sub_col_stats <;> simp [ha, hb]

/-- One sub-column summary for the key "a.b". -/
def subCS : SubColumnStatistics :=
  { min := .IntVal 1, max := .IntVal 2, unset_bits := 3, in_memory_size := 4 }

def subM : StatisticsOfSubColumns := fun key => if key = "a.b" then some subCS else none

/-- A record carrying sub-column statistics. -/
def stSub : Statistics :=
  { row_count := 1, block_count := 1, uncompressed_byte_size := 10,
    compressed_byte_size := 5, col_stats := fun _ => none, sub_col_stats := some subM }

/-- A record without sub-column statistics. -/
def stPlain : Statistics :=
  { row_count := 2, block_count := 1, uncompressed_byte_size := 20,
    compressed_byte_size := 8, col_stats := fun _ => none, sub_col_stats := none }

theorem C7_witness : (mergeStats stSub stPlain).sub_col_stats = some subM :=
  (C7_sub_stats_propagation stSub stPlain _ (merge_statistics_ok _ _)).2.1 subM rfl rfl

/-- C8: `reduce_statistics` of the empty sequence is the identity record:
all four counters zero, every column-map entry absent, and absent
sub-column statistics. -/
theorem C8_empty_fold_is_identity :
    reduce_statistics [] = Except.ok Statistics.default ∧
    Statistics.default.row_count = 0 ∧
    Statistics.default.block_count = 0 ∧
    Statistics.default.uncompressed_byte_size = 0 ∧
    Statistics.default.compressed_byte_size = 0 ∧
    (∀ k, Statistics.default.col_stats k = none) ∧
    Statistics.default.sub_col_stats = none :=
  ⟨rfl, rfl, rfl, rfl, rfl, fun _ => rfl, rfl⟩

/-- C9: all five reduction functions return `Ok` on every input — the
empty sequence, ragged column coverage and all-null columns included;
none of them constructs an error of its own. -/
theorem C9_all_reducers_total :
    (∀ stats : List StatisticsOfColumns,
      ∃ v, reduce_block_statistics stats = Except.ok v) ∧
    (∀ sub_stats : List StatisticsOfSubColumns,
      ∃ v, reduce_block_sub_statistics sub_stats = Except.ok v) ∧
    (∀ l r : Statistics, ∃ v, merge_statistics l r = Except.ok v) ∧
    (∀ stats : List Statistics, ∃ v, reduce_statistics stats = Except.ok v) ∧
    (∀ bs : List BlockMeta, ∃ v, reduce_block_metas bs = Except.ok v) :=
  ⟨fun _ => ⟨_, rfl⟩, fun _ => ⟨_, rfl⟩, fun l r => ⟨_, merge_statistics_ok l r⟩,
    fun stats => ⟨_, reduce_statistics_ok stats⟩,
    fun bs => ⟨_, reduce_block_metas_ok bs⟩⟩

/-- Well-formedness of a column summary: `min`/`max` are both the
null-marker, or both non-null with `min` at most `max` under the supplied
total order. -/
def wfColumn (e : ColumnStatistics) : Prop :=
  (e.min = DataValue.Null ∧ e.max = DataValue.Null) ∨
  (e.min ≠ DataValue.Null ∧ e.max ≠ DataValue.Null ∧ e.min.le e.max)

instance (e : ColumnStatistics) : Decidable (wfColumn e) := by
  unfold wfColumn
  infer_instance

/-- C10: the column reducer preserves min/max well-formedness: if every
input entry is well-formed then so is every output entry — the output
never pairs a null-marker `min` with a non-null `max` or vice versa, and
never has `min` greater than `max`. -/
theorem C10_wf_preserved (stats : List StatisticsOfColumns)
    (hwf : ∀ m ∈ stats, ∀ k e, m k = some e → wfColumn e)
    (out : StatisticsOfColumns) (hout : reduce_block_statistics stats = Except.ok out)
    (k : ColumnId) (e : ColumnStatistics) (he : out k = some e) : wfColumn e := by
  have hout' : reduceColumnsPure stats = out := Except.ok.inj hout
  subst hout'
  have hcontrib : ∀ c ∈ stats.filterMap (fun m => m k), wfColumn c := by
    intro c hc
    obtain ⟨m, hm, hmk⟩ := List.mem_filterMap.mp hc
    exact hwf m hm k c hmk
  obtain ⟨hmin_nil, hmin_ne⟩ := reduceColumnsPure_min_spec he
  obtain ⟨hmax_nil, hmax_ne⟩ := reduceColumnsPure_max_spec he
  by_cases hn : nonNullMins stats k = []
  · -- all contributing mins are the null-marker, hence all maxes too
    have hmx : nonNullMaxs stats k = [] := by
      rw [List.eq_nil_iff_forall_not_mem]
      intro v hv
      obtain ⟨c, hc, hcv, hvne⟩ := of_mem_nonNullMaxs hv
      rcases hcontrib c hc with ⟨hc1, hc2⟩ | ⟨hc1, hc2, hc3⟩
      · exact hvne (hcv ▸ hc2)
      · exact List.eq_nil_iff_forall_not_mem.mp hn c.min (mem_nonNullMins hc hc1)
    exact Or.inl ⟨hmin_nil hn, hmax_nil hmx⟩
  · obtain ⟨hminmem, _⟩ := hmin_ne hn
    obtain ⟨c, hc, hceq, hminnn⟩ := of_mem_nonNullMins hminmem
    rcases hcontrib c hc with ⟨hc1, _⟩ | ⟨_, hc2, hc3⟩
    · exact absurd (hceq ▸ hc1) hminnn
    · have hcmax : c.max ∈ nonNullMaxs stats k := mem_nonNullMaxs hc hc2
      have hmxne : nonNullMaxs stats k ≠ [] := List.ne_nil_of_mem hcmax
      obtain ⟨hmaxmem, hmaxub⟩ := hmax_ne hmxne
      obtain ⟨_, _, _, hmaxnn⟩ := of_mem_nonNullMaxs hmaxmem
      refine Or.inr ⟨hminnn, hmaxnn, ?_⟩
      exact DataValue.le_trans (hceq ▸ hc3) (hmaxub c.max hcmax)

/-- All entries of the example maps are well-formed. -/
theorem mapsAB_wf : ∀ m ∈ [mapA, mapB], ∀ k e, m k = some e → wfColumn e := by
  intro m hm k e he
  rcases mapsAB_entries_some m hm k e he with rfl | rfl <;> decide

theorem C10_witness : wfColumn csMergedAB :=
  C10_wf_preserved [mapA, mapB] mapsAB_wf _ rfl 0 csMergedAB (by decide)
